import Mathlib

/-!
Shallow embedding of the wtap-mhmondays-scraper pipeline
(main variant: src/unnamed/part_002, plus sanitizeFilename from
src/src/scraper.ts), together with theorems settling the frozen claims.

Modelling conventions:
- JavaScript string truthiness is modelled by jsTruthy (null/undefined and
  the empty string are falsy).
- The ambient clock (new Date()) is an explicit JSDate argument.
- A JS Date object is modelled as a JSDate record carrying its epoch
  timestamp together with the derived calendar fields; parsing of a date
  string is abstracted to its outcome, so an ArticleMeta publish date is
  an Option JSDate (none = absent or unparsable).
- The filesystem is a set of existing paths, modelled as a List String.
- Network and subprocess outcomes are oracle Booleans carried by the
  episode input; regex matches over script text are abstracted to their
  resulting Option String.
-/

namespace Scraper

/-- Truthiness of a JS string-or-nullish value: null, undefined and the
empty string are falsy. -/
def jsTruthy : Option String → Bool
  | none => false
  | some s => !s.data.isEmpty

/-- JS logical-or over string-or-nullish values: first truthy operand wins. -/
def jsOr (a b : Option String) : Option String :=
  if jsTruthy a then a else b

/-- Cascade step: early return of a truthy result, otherwise continue. -/
def jsAlt (a b : Option String) : Option String :=
  if jsTruthy a then a else b

/-- JS logical-or over plain strings (empty string is falsy). -/
def jsOrS (a b : String) : String :=
  if a.data.isEmpty then b else a

/-- Kernel-evaluable string prefix test. -/
def strStartsWith (s p : String) : Bool :=
  s.data.take p.data.length == p.data

/-- Kernel-evaluable string suffix test. -/
def strEndsWith (s p : String) : Bool :=
  s.data.drop (s.data.length - p.data.length) == p.data
    && decide (p.data.length ≤ s.data.length)

/-- Kernel-evaluable whitespace trim of both ends. -/
def strTrim (s : String) : String :=
  String.mk (((s.data.dropWhile Char.isWhitespace).reverse.dropWhile Char.isWhitespace).reverse)

/-- Model of the DATA_DIR configuration constant (cwd-relative default). -/
def DATA_DIR : String := ".data"

/-- Model of path.join DATA_DIR filename. -/
def dataPath (f : String) : String := DATA_DIR ++ "/" ++ f

/-- Embedding of filename.replace with the case-insensitive anchored
pattern dot-mp4-at-end, replacement ".mp3": if the last four characters
lowercase to ".mp4" they are replaced by ".mp3", otherwise the string is
returned unchanged. -/
def replaceMp4Ext (s : String) : String :=
  if (s.data.drop (s.data.length - 4)).map Char.toLower = ['.', 'm', 'p', '4'] then
    String.mk (s.data.take (s.data.length - 4) ++ ['.', 'm', 'p', '3'])
  else s

/-- Model of a JS Date value: epoch milliseconds plus the derived
calendar fields (their derivation from the timestamp is abstracted). -/
structure JSDate where
  ts : Nat
  year : Nat
  month : Nat
  day : Nat
deriving DecidableEq

/-- Two-digit zero padding, as String(x).padStart(2, "0") for x up to 99. -/
def pad2 (n : Nat) : String :=
  if n < 10 then "0" ++ toString n else toString n

/-- Date formatting yyyy-mm-dd used both by buildFilenameFromPubDate and
by the toISOString().slice(0,10) fallback. -/
def formatDate (d : JSDate) : String :=
  toString d.year ++ "-" ++ pad2 d.month ++ "-" ++ pad2 d.day

/-- Embedding of buildFilenameFromPubDate (part_002): derives the video
filename from the parsed publish date when present, otherwise from the
current date (the explicit now argument models new Date()). -/
def buildFilenameFromPubDate (pubDate : Option JSDate) (now : JSDate) : String :=
  let dateStr :=
    match pubDate with
    | some d => formatDate d
    | none => formatDate now
  "Mental-Health-Mondays-" ++ dateStr ++ ".mp4"

/-- Attempt to match the episode-number pattern at the head of the
character list: letters e p (case-insensitive), an optional dot, any
amount of whitespace, then one or more digits (returned). -/
def epNumAt (cs : List Char) : Option (List Char) :=
  match cs with
  | c1 :: c2 :: rest =>
    if c1.toLower == 'e' && c2.toLower == 'p' then
      let rest1 := match rest with
        | '.' :: r => r
        | r => r
      let rest2 := rest1.dropWhile (fun c => c == ' ' || c == '\t' || c == '\n' || c == '\r')
      let ds := rest2.takeWhile Char.isDigit
      if ds.isEmpty then none else some ds
    else none
  | _ => none

/-- Leftmost match of the episode-number regex over the title text. -/
def findEpNum : List Char → Option (List Char)
  | [] => none
  | c :: rest =>
    match epNumAt (c :: rest) with
    | some ds => some ds
    | none => findEpNum rest

/-- Embedding of sanitizeFilename (scraper.ts): uses the episode number
extracted from the title when the pattern matches, otherwise the current
date, to build the video filename. -/
def sanitizeFilename (title : String) (now : JSDate) : String :=
  match findEpNum title.data with
  | some ds => "Mental-Health-Mondays-Ep" ++ String.mk ds ++ ".mp4"
  | none => "Mental-Health-Mondays-Ep" ++ formatDate now ++ ".mp4"

/-- One entry of the Fusion metadata streams list. -/
structure VideoStream where
  stream_type : Option String
  url : Option String
deriving DecidableEq

/-- Parsed Fusion.globalContent metadata. -/
structure VideoMetadata where
  streams : Option (List VideoStream)
deriving DecidableEq

/-- Outcome of JSON.parse on a matched Fusion.globalContent blob: either
a parsed metadata value or a parse error (which the code catches). -/
inductive FusionParse where
  | ok (m : VideoMetadata)
  | malformed
deriving DecidableEq

/-- Check whether a stream is typed as progressive mp4. -/
def isMp4Stream (s : VideoStream) : Bool :=
  match s.stream_type with
  | some t => t == "mp4"
  | none => false

/-- Check whether a stream is typed as a segmented ts stream. -/
def isTsStream (s : VideoStream) : Bool :=
  match s.stream_type with
  | some t => t == "ts"
  | none => false

/-- Url of the first mp4-typed stream, when both exist. -/
def mp4UrlOf (streams : List VideoStream) : Option String :=
  (streams.find? isMp4Stream).bind (fun s => s.url)

/-- Url of the first ts-typed stream, when both exist. -/
def tsUrlOf (streams : List VideoStream) : Option String :=
  (streams.find? isTsStream).bind (fun s => s.url)

/-- Embedding of the strategy-1 stream selection: find the first
mp4-typed stream and return its url if truthy; otherwise find the first
ts-typed stream and return its url if truthy; otherwise miss. -/
def fusionStreamUrl (m : VideoMetadata) : Option String :=
  match m.streams with
  | none => none
  | some streams =>
    if jsTruthy (mp4UrlOf streams) then mp4UrlOf streams
    else if jsTruthy (tsUrlOf streams) then tsUrlOf streams else none

/-- Boundary after a media extension: end of string or a query string. -/
def extBoundary : List Char → Bool
  | [] => true
  | '?' :: _ => true
  | _ => false

/-- Match of the media-extension pattern at the head of the character
list: a dot, then m3u8 or mp4 case-insensitively, then a boundary. -/
def extMatchHere : List Char → Bool
  | '.' :: a :: b :: c :: d :: rest =>
    (a.toLower == 'm' && b.toLower == '3' && c.toLower == 'u' && d.toLower == '8'
      && extBoundary rest)
    || (a.toLower == 'm' && b.toLower == 'p' && c.toLower == '4'
      && extBoundary (d :: rest))
  | ['.', a, b, c] =>
    a.toLower == 'm' && b.toLower == 'p' && c.toLower == '4'
  | _ => false

/-- Search for the media-extension pattern anywhere in the list. -/
def mediaExtAux : List Char → Bool
  | [] => false
  | c :: rest => extMatchHere (c :: rest) || mediaExtAux rest

/-- Embedding of the media-URL test regex (dot, m3u8 or mp4, then a
query string or end of string, case-insensitive, anywhere in the URL). -/
def mediaExtTest (s : String) : Bool := mediaExtAux s.data

/-- Outcome of the rendered-page fallback: the network responses observed
during navigation (url and status, in arrival order) and the result of
DOM inspection after load. -/
structure Rendered where
  responses : List (String × Nat)
  domUrl : Option String
deriving DecidableEq

/-- First captured network response whose url matches the media pattern
and whose status indicates success. -/
def capturedUrl (rs : List (String × Nat)) : Option String :=
  (rs.find? (fun r => mediaExtTest r.1 && decide (r.2 < 400))).map (fun r => r.1)

/-- Representation of a fetched episode page at the points the resolver
inspects it: the optional Fusion blob match with its parse outcome, the
static markup attributes, the abstracted regex matches over inline
script text, the data attributes, and the rendered fallback outcome
(none models a caught renderer failure). -/
structure Page where
  fusionBlob : Option FusionParse
  videoSourceSrc : Option String
  videoSrc : Option String
  scriptsUrlMatch : Option String
  scriptsKeyMatch : Option String
  dataVideoSrc : Option String
  dataSrc : Option String
  dataUrl : Option String
  rendered : Option Rendered
deriving DecidableEq

/-- Strategy 1: embedded Fusion metadata (a malformed blob is caught and
treated as a miss). -/
def strategy1 (p : Page) : Option String :=
  match p.fusionBlob with
  | some (FusionParse.ok m) => fusionStreamUrl m
  | _ => none

/-- Strategy 2: static video or nested source element src. -/
def strategy2 (p : Page) : Option String :=
  jsOr p.videoSourceSrc p.videoSrc

/-- Strategy 3: media URLs found in concatenated inline script text. -/
def strategy3 (p : Page) : Option String :=
  jsOr p.scriptsUrlMatch p.scriptsKeyMatch

/-- Strategy 4: player data attributes, accepted only when the value
matches the media-extension pattern. -/
def strategy4 (p : Page) : Option String :=
  let d := jsOr (jsOr p.dataVideoSrc p.dataSrc) p.dataUrl
  if jsTruthy d then
    if mediaExtTest (d.getD ("")) then d else none
  else none

/-- Strategy 5: rendered fallback; DOM-derived URL preferred over the
first captured network match; a caught renderer failure is a miss. -/
def strategy5 (p : Page) : Option String :=
  match p.rendered with
  | none => none
  | some r => jsOr r.domUrl (capturedUrl r.responses)

/-- Embedding of extractVideoUrl (part_002) on an already-fetched page:
the ordered strategy cascade with early return on a truthy result, and
null on total miss. -/
def extractVideoUrl (p : Page) : Option String :=
  jsAlt (strategy1 p)
    (jsAlt (strategy2 p)
      (jsAlt (strategy3 p)
        (jsAlt (strategy4 p)
          (jsAlt (strategy5 p) none))))

/-- Model of the listing-page URL constant. -/
def SEARCH_URL : String := "https://www.wtap.com/wtap-plus/podcasts/mental-health-mondays/"

/-- Model of the site base URL used to absolutize relative hrefs. -/
def BASE_URL : String := "https://www.wtap.com"

/-- Absolutization of an anchor href: hrefs starting with http are kept,
path-absolute hrefs are resolved against the site base (further URL
normalization performed by the URL constructor is abstracted). -/
def resolveUrl (href : String) : String :=
  if strStartsWith href ("http") then href else BASE_URL ++ href

/-- Embedding of replace of an optional trailing slash by a slash:
guarantees exactly that the string ends with one slash added if absent. -/
def ensureTrailingSlash (u : String) : String :=
  if strEndsWith u ("/") then u else u ++ "/"

/-- Skip everything up to and including the first scheme separator. -/
def dropScheme : List Char → Option (List Char)
  | [] => none
  | ':' :: '/' :: '/' :: rest => some rest
  | _ :: rest => dropScheme rest

/-- Pathname of an absolute URL: the part from the first slash after the
scheme separator and host (a URL without a scheme separator is modelled
as having an empty pathname, matching a URL-constructor failure). -/
def pathnameOf (u : String) : String :=
  match dropScheme u.data with
  | some rest =>
    let p := rest.dropWhile (fun c => !(c == '/'))
    if p.isEmpty then "/" else String.mk p
  | none => ""

/-- Test of the article date-path shape: slash, four digits, slash, two
digits, slash, two digits, slash, at the start of the pathname. -/
def datePathShape (p : String) : Bool :=
  match p.data with
  | c0 :: y1 :: y2 :: y3 :: y4 :: c5 :: m1 :: m2 :: c8 :: d1 :: d2 :: c11 :: _ =>
    c0 == '/' && y1.isDigit && y2.isDigit && y3.isDigit && y4.isDigit
      && c5 == '/' && m1.isDigit && m2.isDigit
      && c8 == '/' && d1.isDigit && d2.isDigit && c11 == '/'
  | _ => false

/-- Embedding of the isEpisodeUrl predicate of searchForVideos: excludes
the listing page itself (trailing-slash-normalized) and the homepage
path, then requires the date-stamped article path shape. -/
def isEpisodeUrl (href : String) : Bool :=
  let u := resolveUrl href
  if ensureTrailingSlash u == SEARCH_URL then false
  else if pathnameOf u == "/homepage" then false
  else datePathShape (pathnameOf u)

/-- An anchor element with its href attribute value and its text. -/
structure Anchor where
  href : String
  text : String
deriving DecidableEq

/-- An episode card container: the anchors with href inside it in
document order, and the text of the first heading inside it (empty when
there is none, matching text() of an empty selection). -/
structure Card where
  anchors : List Anchor
  heading : String
deriving DecidableEq

/-- The rendered listing page: the card containers and all anchors with
href, both in document order. -/
structure ListingPage where
  cards : List Card
  allAnchors : List Anchor
deriving DecidableEq

/-- A discovered episode reference. -/
structure VideoInfo where
  title : String
  url : String
deriving DecidableEq

/-- Processing of one card in the primary discovery strategy: take the
first anchor, validate its href, absolutize, re-check the listing-page
self-link exclusion, derive the title from heading text then link text
then the fixed default, and append unless the exact URL was seen. -/
def addCard (acc : List VideoInfo) (card : Card) : List VideoInfo :=
  match card.anchors.head? with
  | none => acc
  | some a =>
    if (strTrim a.href).data.isEmpty then acc
    else if !isEpisodeUrl (strTrim a.href) then acc
    else if ensureTrailingSlash (resolveUrl (strTrim a.href)) == SEARCH_URL then acc
    else if acc.any (fun v => v.url == resolveUrl (strTrim a.href)) then acc
    else acc ++
      [⟨jsOrS (jsOrS (strTrim card.heading) (strTrim a.text)) "Mental Health Mondays",
        resolveUrl (strTrim a.href)⟩]

/-- Processing of one anchor in the fallback discovery strategy. -/
def addAnchor (acc : List VideoInfo) (a : Anchor) : List VideoInfo :=
  if (strTrim a.href).data.isEmpty then acc
  else if !isEpisodeUrl (strTrim a.href) then acc
  else if acc.any (fun v => v.url == resolveUrl (strTrim a.href)) then acc
  else acc ++ [⟨jsOrS (strTrim a.text) "Mental Health Mondays", resolveUrl (strTrim a.href)⟩]

/-- Embedding of searchForVideos (part_002) on the rendered listing
page: card-scoped primary strategy, page-wide anchor fallback only when
the primary strategy yields nothing. -/
def searchForVideos (p : ListingPage) : List VideoInfo :=
  if (p.cards.foldl addCard []).isEmpty then p.allAnchors.foldl addAnchor []
  else p.cards.foldl addCard []

/-- A catalog entry as produced in a run, before ordinal assignment. -/
structure NewEpisode where
  file : String
  title : String
  description : String
  pub_date : Nat
  explicit : Bool
  season : Nat
  episode_type : String
deriving DecidableEq

/-- A persisted catalog entry, with its assigned ordinal. -/
structure EpisodeYaml where
  file : String
  title : String
  description : String
  pub_date : Nat
  explicit : Bool
  season : Nat
  episode : Nat
  episode_type : String
deriving DecidableEq

/-- Ordinal assignment turning a new entry into a persisted one. -/
def NewEpisode.toYaml (n : NewEpisode) (k : Nat) : EpisodeYaml :=
  ⟨n.file, n.title, n.description, n.pub_date, n.explicit, n.season, k, n.episode_type⟩

/-- The persisted catalog document: feed-level metadata fields plus the
optional episodes list (absent in a fresh or template document). -/
structure TemplateYaml where
  name : Option String
  title : Option String
  description : Option String
  episodes : Option (List EpisodeYaml)
deriving DecidableEq

/-- Stable insertion of an element into a list, before the first element
it compares at-most-equal to. -/
def insertByLe (le : α → α → Bool) (x : α) : List α → List α
  | [] => [x]
  | y :: ys => if le x y then x :: y :: ys else y :: insertByLe le x ys

/-- Stable insertion sort, modelling the stable JS Array sort with a
numeric ascending comparator. -/
def sortByLe (le : α → α → Bool) : List α → List α
  | [] => []
  | x :: xs => insertByLe le x (sortByLe le xs)

/-- The merge loop of upsertEpisodes: entries whose filename is already
known are skipped; surviving entries are appended with the next ordinal
and their filename is added to the known set. -/
def upsertGo (files : List String) (next : Nat) (eps : List EpisodeYaml) :
    List NewEpisode → List EpisodeYaml
  | [] => eps
  | e :: rest =>
    if e.file ∈ files then upsertGo files next eps rest
    else upsertGo (e.file :: files) (next + 1) (eps ++ [e.toYaml next]) rest

/-- Number of entries of the new list that survive the duplicate skip
against an initial set of known filenames. -/
def surviveCount (files : List String) : List NewEpisode → Nat
  | [] => 0
  | e :: rest =>
    if e.file ∈ files then surviveCount files rest
    else surviveCount (e.file :: files) rest + 1

/-- The maximum existing ordinal, with the reduce seed zero (an absent
ordinal is read as zero by the code). -/
def existingMaxOf (episodes : List EpisodeYaml) : Nat :=
  episodes.foldl (fun m e => max m e.episode) 0

/-- Embedding of upsertEpisodes (part_002): append-or-skip merge keyed
by filename, ordinals continuing from the maximum existing ordinal plus
one, result sorted by ordinal. -/
def upsertEpisodes (doc : TemplateYaml) (newEpisodes : List NewEpisode) : TemplateYaml :=
  { doc with
    episodes := some (sortByLe (fun a b => a.episode ≤ b.episode)
      (upsertGo ((doc.episodes.getD []).map (fun e => e.file))
        (existingMaxOf (doc.episodes.getD []) + 1) (doc.episodes.getD []) newEpisodes)) }

/-- The pre-merge sort of the collected entries by publish date for
deterministic numbering (main, before calling upsertEpisodes). -/
def sortByPubDate (l : List NewEpisode) : List NewEpisode :=
  sortByLe (fun a b => a.pub_date ≤ b.pub_date) l

/-- The catalog-publishing step of main: sort the collected entries by
publish date, then merge them into the loaded document. -/
def mergeIntoCatalog (doc : TemplateYaml) (entries : List NewEpisode) : TemplateYaml :=
  upsertEpisodes doc (sortByPubDate entries)

/-- The filesystem state: the set of existing file paths. -/
abbrev FS : Type := List String

/-- Creation of a file (an existing path is left as is). -/
def insertFile (f : String) (fs : FS) : FS :=
  if f ∈ fs then fs else f :: fs

/-- Deletion of a file. -/
def removeFile (f : String) (fs : FS) : FS :=
  List.filter (fun x => decide (x ≠ f)) fs

/-- Per-episode article metadata, all fields optional; the publish date
is carried as its parse outcome (none = absent or unparsable). -/
structure ArticleMeta where
  title : Option String
  description : Option String
  pubDate : Option JSDate
deriving DecidableEq

/-- Result of the downloadVideo step: whether extractAudio should run,
the resulting filesystem, and the number of network media fetches
performed. -/
structure DownloadResult where
  downloaded : Bool
  fs : FS
  fetches : Nat
deriving DecidableEq

/-- Embedding of downloadVideo (part_002): if the audio artifact exists
the step is done (no fetch, no transcode requested); else if the video
artifact exists the fetch is skipped and transcode is requested; else
the media is fetched (netOk models the streamed download outcome,
timeout included) and on failure the partial file is written and then
unlinked before reporting failure. -/
def downloadVideo (fs : FS) (filename : String) (netOk : Bool) : DownloadResult :=
  if dataPath (replaceMp4Ext filename) ∈ fs then ⟨false, fs, 0⟩
  else if dataPath filename ∈ fs then ⟨true, fs, 0⟩
  else if netOk then ⟨true, insertFile (dataPath filename) fs, 1⟩
  else ⟨false, removeFile (dataPath filename) (insertFile (dataPath filename) fs), 1⟩

/-- Embedding of extractAudio (part_002): invoke the transcoder on the
video artifact; on success the audio artifact is created and the video
file is deleted; on failure (ffmpegOk models the subprocess outcome,
which also fails when the input file is missing) the state is
unchanged. -/
def extractAudio (fs : FS) (videoFilename : String) (ffmpegOk : Bool) : Bool × FS :=
  if ffmpegOk && decide (dataPath videoFilename ∈ fs) then
    (true, removeFile (dataPath videoFilename) (insertFile (dataPath (replaceMp4Ext videoFilename)) fs))
  else (false, fs)

/-- The per-episode inputs of one iteration of the main loop: the
fetched episode page, the fetched article metadata, the current clock,
and the oracles for the download and transcode outcomes. -/
structure EpisodeInput where
  page : Page
  meta : ArticleMeta
  now : JSDate
  netOk : Bool
  ffmpegOk : Bool
deriving DecidableEq

/-- Derived video artifact filename of an episode. -/
def videoNameOf (ep : EpisodeInput) : String :=
  buildFilenameFromPubDate ep.meta.pubDate ep.now

/-- Derived audio artifact filename of an episode. -/
def audioNameOf (ep : EpisodeInput) : String :=
  replaceMp4Ext (videoNameOf ep)

/-- The catalog entry main builds for a tagged episode: basename of the
audio path, nullish-coalesced title and description, publish date
timestamp (current time when absent), and the fixed fields. -/
def mkEntry (ep : EpisodeInput) : NewEpisode :=
  { file := audioNameOf ep
    title := ep.meta.title.getD ("Mental Health Mondays")
    description := ep.meta.description.getD ("")
    pub_date := (ep.meta.pubDate.getD ep.now).ts
    explicit := false
    season := 1
    episode_type := "full" }

/-- Result of processing one episode: the filesystem afterwards, the
network media fetches and transcoder invocations performed, and the
catalog entry collected (none when the episode was skipped). -/
structure EpResult where
  fs : FS
  downloads : Nat
  transcodes : Nat
  entry : Option NewEpisode
deriving DecidableEq

/-- The tagging-and-collection tail of the loop body: tagging and the
catalog entry require the audio artifact to exist (tag writing and the
file-time update do not change which files exist); the entry is
collected only when catalog generation is enabled. -/
def tagPhase (genYaml : Bool) (fs : FS) (d t : Nat) (ep : EpisodeInput) : EpResult :=
  if dataPath (audioNameOf ep) ∈ fs then
    ⟨fs, d, t, if genYaml then some (mkEntry ep) else none⟩
  else ⟨fs, d, t, none⟩

/-- Embedding of one iteration of the main processing loop (part_002):
resolve the page (a falsy result skips the episode), derive the filename
from the publish date, run downloadVideo, run extractAudio when
requested (a failed transcode skips the rest), then tag and collect. -/
def processEpisode (genYaml : Bool) (fs : FS) (ep : EpisodeInput) : EpResult :=
  if jsTruthy (extractVideoUrl ep.page) then
    match downloadVideo fs (videoNameOf ep) ep.netOk with
    | ⟨true, fs1, d⟩ =>
      match extractAudio fs1 (videoNameOf ep) ep.ffmpegOk with
      | (true, fs2) => tagPhase genYaml fs2 d 1 ep
      | (false, fs2) => ⟨fs2, d, 1, none⟩
    | ⟨false, fs1, d⟩ => tagPhase genYaml fs1 d 0 ep
  else ⟨fs, 0, 0, none⟩

/-- Result of a whole run over the discovered episodes. -/
structure RunResult where
  fs : FS
  downloads : Nat
  transcodes : Nat
  entries : List NewEpisode
deriving DecidableEq

/-- Accumulation of one episode result onto the rest of the run. -/
def combineRun (r : EpResult) (rr : RunResult) : RunResult :=
  ⟨rr.fs, r.downloads + rr.downloads, r.transcodes + rr.transcodes,
    (match r.entry with
     | some e => e :: rr.entries
     | none => rr.entries)⟩

/-- Sequential processing of the discovered episodes in discovery order,
accumulating the collected catalog entries in order. -/
def runEpisodes (genYaml : Bool) (fs : FS) : List EpisodeInput → RunResult
  | [] => ⟨fs, 0, 0, []⟩
  | ep :: rest =>
    combineRun (processEpisode genYaml fs ep)
      (runEpisodes genYaml (processEpisode genYaml fs ep).fs rest)

/-- Iterated runs processing the same episode, returning the final
filesystem and the total fetches and transcodes performed. -/
def processN (genYaml : Bool) (ep : EpisodeInput) : Nat → FS → FS × Nat × Nat
  | 0, fs => (fs, 0, 0)
  | n + 1, fs =>
    ((processN genYaml ep n (processEpisode genYaml fs ep).fs).1,
      (processEpisode genYaml fs ep).downloads
        + (processN genYaml ep n (processEpisode genYaml fs ep).fs).2.1,
      (processEpisode genYaml fs ep).transcodes
        + (processN genYaml ep n (processEpisode genYaml fs ep).fs).2.2)

/-- Sample publish date 2024-01-02 with its epoch timestamp. -/
def wDate : JSDate := ⟨1704153600000, 2024, 1, 2⟩

/-- Sample run clock 2024-01-24. -/
def wNow : JSDate := ⟨1706054400000, 2024, 1, 24⟩

/-- Another run clock, one day later. -/
def wNow2 : JSDate := ⟨1706140800000, 2024, 1, 25⟩

/-- Episode page resolving through the static markup strategy. -/
def wPageVid : Page :=
  ⟨none, some ("http://x/v.mp4"), none, none, none, none, none, none, none⟩

/-- Episode page with a malformed Fusion blob and a static source. -/
def wPageMal : Page :=
  ⟨some FusionParse.malformed, some ("http://x/v.mp4"), none, none, none, none, none, none, none⟩

/-- Episode page on which every strategy misses. -/
def wPageMiss : Page :=
  ⟨some FusionParse.malformed, none, none, none, none, none, none, none,
    some ⟨[("http://x/page.html", 200), ("http://x/clip.mp4", 404)], none⟩⟩

/-- Sample article metadata with a parseable publish date. -/
def wMeta : ArticleMeta := ⟨some ("Ep Title"), some ("About the episode"), some wDate⟩

/-- Episode input that downloads and transcodes successfully. -/
def wEp : EpisodeInput := ⟨wPageVid, wMeta, wNow, true, true⟩

/-- Episode input whose page resolves to nothing. -/
def wEpMiss : EpisodeInput := ⟨wPageMiss, wMeta, wNow, true, true⟩

/-- Episode input whose media download fails. -/
def wEpFail : EpisodeInput := ⟨wPageVid, wMeta, wNow, false, true⟩

/-- Filesystem holding only the video artifact of wEp. -/
def wFsVideo : FS := [dataPath (videoNameOf wEp)]

/-- Filesystem holding only the audio artifact of wEp. -/
def wFsAudio : FS := [dataPath (audioNameOf wEp)]

/-- Filesystem holding both artifacts of wEp. -/
def wFsBoth : FS := [dataPath (videoNameOf wEp), dataPath (audioNameOf wEp)]

/-- Catalog entry recorded for wEp by a completed first run. -/
def wCatEntry : EpisodeYaml :=
  ⟨"Mental-Health-Mondays-2024-01-02.mp3", "Ep Title", "About the episode",
    1704153600000, false, 1, 1, "full"⟩

/-- Catalog document after a completed first run over wEp. -/
def wDoc : TemplateYaml := ⟨some ("mhm"), some ("Mental Health Mondays"), none, some [wCatEntry]⟩

/-- Existing catalog entry with ordinal 1. -/
def cEntryA : EpisodeYaml := ⟨"a.mp3", "A", "", 100, false, 1, 1, "full"⟩

/-- Existing catalog entry with ordinal 2. -/
def cEntryB : EpisodeYaml := ⟨"b.mp3", "B", "", 200, false, 1, 2, "full"⟩

/-- Existing catalog with ordinals one and two. -/
def cDoc12 : TemplateYaml := ⟨none, none, none, some [cEntryA, cEntryB]⟩

/-- New entry duplicating an existing filename. -/
def cDup : NewEpisode := ⟨"a.mp3", "A again", "", 300, false, 1, "full"⟩

/-- Fresh new entry with the earlier publish date. -/
def cNew1 : NewEpisode := ⟨"c.mp3", "C", "", 300, false, 1, "full"⟩

/-- Fresh new entry with the later publish date. -/
def cNew2 : NewEpisode := ⟨"d.mp3", "D", "", 400, false, 1, "full"⟩

/-- Fusion metadata whose first mp4-typed stream has no url while a
later mp4-typed stream and a ts-typed stream do. -/
def cMeta6 : VideoMetadata :=
  ⟨some [⟨some ("mp4"), none⟩, ⟨some ("mp4"), some ("http://a/a.mp4")⟩,
    ⟨some ("ts"), some ("http://b/seg.ts")⟩]⟩

/-- Page with both the (tricky) Fusion metadata and a static source. -/
def cPage6 : Page :=
  ⟨some (FusionParse.ok cMeta6), some ("http://x/markup.mp4"), none, none, none,
    none, none, none, none⟩

/-- Fusion metadata whose first mp4-typed stream has a usable url. -/
def cMetaGood : VideoMetadata := ⟨some [⟨some ("mp4"), some ("http://a/a.mp4")⟩]⟩

/-- Page with good Fusion metadata and a competing static source. -/
def cPageGood : Page :=
  ⟨some (FusionParse.ok cMetaGood), some ("http://x/markup.mp4"), none, none, none,
    none, none, none, none⟩

/-- Title carrying an explicit episode number. -/
def cTitleEp : String := "Mental Health Mondays, Ep. 2"

/-- Listing page with two cards whose anchors differ only by a trailing
slash. -/
def cListing : ListingPage :=
  ⟨[⟨[⟨"/2024/01/02/slug", "Episode two"⟩], "Episode two"⟩,
    ⟨[⟨"/2024/01/02/slug/", "Episode two"⟩], "Episode two"⟩], []⟩

theorem str_data_append (a b : String) : (a ++ b).data = a.data ++ b.data := rfl

theorem str_ext {a b : String} (h : a.data = b.data) : a = b := by
  cases a
  cases b
  exact congrArg String.mk h

theorem str_append_cancel_left {p a b : String} (h : p ++ a = p ++ b) : a = b := by
  apply str_ext
  have hd := congrArg String.data h
  rw [str_data_append, str_data_append] at hd
  exact List.append_cancel_left hd

theorem replaceMp4Ext_append (t : String) : replaceMp4Ext (t ++ ".mp4") = t ++ ".mp3" := by
  have hdata : (t ++ ".mp4").data = t.data ++ ['.', 'm', 'p', '4'] := rfl
  have hlen : (t ++ ".mp4").data.length - 4 = t.data.length := by
    rw [hdata, List.length_append]
    simp
  unfold replaceMp4Ext
  rw [hdata] at *
  rw [hlen]
  have hdrop : (t.data ++ ['.', 'm', 'p', '4']).drop t.data.length = ['.', 'm', 'p', '4'] :=
    List.drop_left t.data ['.', 'm', 'p', '4']
  have htake : (t.data ++ ['.', 'm', 'p', '4']).take t.data.length = t.data :=
    List.take_left t.data ['.', 'm', 'p', '4']
  rw [hdrop, htake]
  rw [if_pos (by decide)]
  apply str_ext
  rfl

theorem buildFilename_stem (pd : Option JSDate) (now : JSDate) :
    ∃ t, buildFilenameFromPubDate pd now = t ++ ".mp4" := by
  cases pd
  · exact ⟨_, rfl⟩
  · exact ⟨_, rfl⟩

theorem audioName_ne_videoName (ep : EpisodeInput) : audioNameOf ep ≠ videoNameOf ep := by
  obtain ⟨t, ht⟩ := buildFilename_stem ep.meta.pubDate ep.now
  unfold audioNameOf videoNameOf at *
  rw [ht, replaceMp4Ext_append]
  intro h
  have := str_append_cancel_left h
  exact absurd (congrArg String.data this) (by decide)

theorem dataPath_inj {a b : String} (h : dataPath a = dataPath b) : a = b :=
  str_append_cancel_left h

theorem audioPath_ne_videoPath (ep : EpisodeInput) :
    dataPath (audioNameOf ep) ≠ dataPath (videoNameOf ep) := by
  intro h
  exact audioName_ne_videoName ep (dataPath_inj h)

theorem mem_insertFile {a f : String} {fs : FS} :
    a ∈ insertFile f fs ↔ a = f ∨ a ∈ fs := by
  by_cases h : f ∈ fs
  · rw [insertFile, if_pos h]
    constructor
    · exact Or.inr
    · rintro (rfl | ha)
      · exact h
      · exact ha
  · rw [insertFile, if_neg h, List.mem_cons]

theorem mem_removeFile {a f : String} {fs : FS} :
    a ∈ removeFile f fs ↔ a ∈ fs ∧ a ≠ f := by
  simp [removeFile, List.mem_filter]

theorem fusionStreamUrl_truthy {m : VideoMetadata} {u : String}
    (h : fusionStreamUrl m = some u) : jsTruthy (some u) = true := by
  unfold fusionStreamUrl at h
  cases hm : m.streams with
  | none => rw [hm] at h; exact absurd h (by simp)
  | some streams =>
    rw [hm] at h
    have h' : (if jsTruthy (mp4UrlOf streams) then mp4UrlOf streams
        else if jsTruthy (tsUrlOf streams) then tsUrlOf streams else none) = some u := h
    by_cases h1 : jsTruthy (mp4UrlOf streams)
    · rw [if_pos h1] at h'
      rw [h'] at h1
      exact h1
    · rw [if_neg h1] at h'
      by_cases h2 : jsTruthy (tsUrlOf streams)
      · rw [if_pos h2] at h'
        rw [h'] at h2
        exact h2
      · rw [if_neg h2] at h'
        exact absurd h' (by simp)

theorem jsAlt_of_truthy {a b : Option String} (h : jsTruthy a = true) : jsAlt a b = a := by
  rw [jsAlt, if_pos h]

theorem jsAlt_of_falsy {a b : Option String} (h : jsTruthy a = false) : jsAlt a b = b := by
  rw [jsAlt, if_neg (by simp [h])]

theorem insertByLe_perm (le : α → α → Bool) (x : α) :
    ∀ l : List α, (insertByLe le x l).Perm (x :: l) := by
  intro l
  induction l with
  | nil => exact List.Perm.refl _
  | cons y ys ih =>
    rw [insertByLe]
    by_cases h : le x y
    · rw [if_pos h]
    · rw [if_neg h]
      exact (ih.cons y).trans (List.Perm.swap x y ys)

theorem sortByLe_perm (le : α → α → Bool) :
    ∀ l : List α, (sortByLe le l).Perm l := by
  intro l
  induction l with
  | nil => exact List.Perm.refl _
  | cons x xs ih =>
    rw [sortByLe]
    exact (insertByLe_perm le x (sortByLe le xs)).trans (ih.cons x)

theorem upsertGo_skip (dup : NewEpisode) :
    ∀ (l1 : List NewEpisode) (files : List String) (next : Nat)
      (eps : List EpisodeYaml) (l2 : List NewEpisode), dup.file ∈ files →
      upsertGo files next eps (l1 ++ dup :: l2) = upsertGo files next eps (l1 ++ l2) := by
  intro l1
  induction l1 with
  | nil =>
    intro files next eps l2 h
    rw [List.nil_append, List.nil_append, upsertGo, if_pos h]
  | cons e rest ih =>
    intro files next eps l2 h
    rw [List.cons_append, List.cons_append, upsertGo, upsertGo]
    by_cases he : e.file ∈ files
    · rw [if_pos he, if_pos he]
      exact ih files next eps l2 h
    · rw [if_neg he, if_neg he]
      exact ih (e.file :: files) (next + 1) (eps ++ [e.toYaml next]) l2 (List.mem_cons_of_mem _ h)

theorem upsertGo_all_dup :
    ∀ (news : List NewEpisode) (files : List String) (next : Nat) (eps : List EpisodeYaml),
      (∀ e ∈ news, e.file ∈ files) → upsertGo files next eps news = eps := by
  intro news
  induction news with
  | nil => intro files next eps _; rfl
  | cons e rest ih =>
    intro files next eps h
    rw [upsertGo, if_pos (h e (List.mem_cons_self e rest))]
    exact ih files next eps (fun x hx => h x (List.mem_cons_of_mem _ hx))

theorem upsertGo_map_episode :
    ∀ (news : List NewEpisode) (files : List String) (next : Nat) (eps : List EpisodeYaml),
      (upsertGo files next eps news).map (fun e => e.episode) =
        eps.map (fun e => e.episode) ++ List.range' next (surviveCount files news) := by
  intro news
  induction news with
  | nil => intro files next eps; simp [upsertGo, surviveCount]
  | cons e rest ih =>
    intro files next eps
    rw [upsertGo, surviveCount]
    by_cases he : e.file ∈ files
    · rw [if_pos he, if_pos he]
      exact ih files next eps
    · rw [if_neg he, if_neg he]
      rw [ih (e.file :: files) (next + 1) (eps ++ [e.toYaml next])]
      rw [List.map_append]
      rw [List.append_assoc]
      congr 1

theorem processEpisode_audio_present (genYaml : Bool) (fs : FS) (ep : EpisodeInput)
    (h : dataPath (audioNameOf ep) ∈ fs) :
    processEpisode genYaml fs ep =
      ⟨fs, 0, 0,
        if jsTruthy (extractVideoUrl ep.page) && genYaml then some (mkEntry ep) else none⟩ := by
  have h0 : dataPath (replaceMp4Ext (videoNameOf ep)) ∈ fs := h
  unfold processEpisode
  by_cases hr : jsTruthy (extractVideoUrl ep.page) = true
  · rw [if_pos hr]
    have hdl : downloadVideo fs (videoNameOf ep) ep.netOk = ⟨false, fs, 0⟩ := by
      unfold downloadVideo
      rw [if_pos h0]
    rw [hdl]
    show tagPhase genYaml fs 0 0 ep = _
    rw [tagPhase, if_pos h]
    rw [hr]
    rfl
  · rw [if_neg hr]
    rw [eq_false_of_ne_true hr]
    rfl

theorem mkEntry_file (ep : EpisodeInput) : (mkEntry ep).file = audioNameOf ep := rfl

theorem runEpisodes_all_audio (genYaml : Bool) (fs : FS) (eps : List EpisodeInput)
    (h : ∀ ep ∈ eps, dataPath (audioNameOf ep) ∈ fs) :
    (runEpisodes genYaml fs eps).fs = fs ∧
    (runEpisodes genYaml fs eps).downloads = 0 ∧
    (runEpisodes genYaml fs eps).transcodes = 0 ∧
    ∀ e ∈ (runEpisodes genYaml fs eps).entries, ∃ ep ∈ eps, e = mkEntry ep := by
  induction eps with
  | nil =>
    refine ⟨rfl, rfl, rfl, ?_⟩
    intro e he
    simp [runEpisodes] at he
  | cons ep rest ih =>
    have hep := h ep (List.mem_cons_self ep rest)
    have hrest := ih (fun e he => h e (List.mem_cons_of_mem _ he))
    rw [runEpisodes, processEpisode_audio_present genYaml fs ep hep]
    obtain ⟨h1, h2, h3, h4⟩ := hrest
    refine ⟨?_, ?_, ?_, ?_⟩
    · show (runEpisodes genYaml fs rest).fs = fs
      exact h1
    · show 0 + (runEpisodes genYaml fs rest).downloads = 0
      rw [h2]
    · show 0 + (runEpisodes genYaml fs rest).transcodes = 0
      rw [h3]
    · by_cases hc : (jsTruthy (extractVideoUrl ep.page) && genYaml) = true
      · rw [if_pos hc]
        intro e he
        have he' : e ∈ mkEntry ep :: (runEpisodes genYaml fs rest).entries := he
        rcases List.mem_cons.mp he' with rfl | hmem
        · exact ⟨ep, List.mem_cons_self ep rest, rfl⟩
        · obtain ⟨ep', hep', heq⟩ := h4 e hmem
          exact ⟨ep', List.mem_cons_of_mem _ hep', heq⟩
      · rw [if_neg hc]
        intro e he
        have he' : e ∈ (runEpisodes genYaml fs rest).entries := he
        obtain ⟨ep', hep', heq⟩ := h4 e he'
        exact ⟨ep', List.mem_cons_of_mem _ hep', heq⟩

theorem upsertEpisodes_all_dup (doc : TemplateYaml) (news : List NewEpisode)
    (h : ∀ e ∈ news, e.file ∈ (doc.episodes.getD []).map (fun x => x.file)) :
    (upsertEpisodes doc news).episodes =
      some (sortByLe (fun a b => a.episode ≤ b.episode) (doc.episodes.getD [])) := by
  unfold upsertEpisodes
  rw [upsertGo_all_dup news _ _ _ h]

theorem push_unique_nodup {acc : List VideoInfo} {v : VideoInfo}
    (h : (acc.map (fun x => x.url)).Nodup)
    (hany : acc.any (fun x => x.url == v.url) = false) :
    (((acc ++ [v]).map (fun x => x.url))).Nodup := by
  rw [List.map_append, List.map_singleton, List.nodup_append]
  refine ⟨h, List.nodup_singleton _, ?_⟩
  intro a ha hb
  rw [List.mem_singleton] at hb
  subst hb
  obtain ⟨x, hx, hxa⟩ := List.mem_map.mp ha
  rw [List.any_eq_false] at hany
  exact absurd (by rw [beq_iff_eq]; exact hxa) (hany x hx)

theorem bool_eq_false {b : Bool} (h : ¬ b = true) : b = false := by
  cases b
  · rfl
  · exact absurd rfl h

theorem addCard_nodup (acc : List VideoInfo) (card : Card)
    (h : (acc.map (fun v => v.url)).Nodup) :
    ((addCard acc card).map (fun v => v.url)).Nodup := by
  unfold addCard
  split
  · exact h
  · split
    · exact h
    · split
      · exact h
      · split
        · exact h
        · split
          · exact h
          · rename_i h4
            exact push_unique_nodup h (bool_eq_false h4)

theorem addAnchor_nodup (acc : List VideoInfo) (a : Anchor)
    (h : (acc.map (fun v => v.url)).Nodup) :
    ((addAnchor acc a).map (fun v => v.url)).Nodup := by
  unfold addAnchor
  split
  · exact h
  · split
    · exact h
    · split
      · exact h
      · rename_i h4
        exact push_unique_nodup h (bool_eq_false h4)

theorem foldl_addCard_nodup :
    ∀ (cards : List Card) (acc : List VideoInfo),
      (acc.map (fun v => v.url)).Nodup →
      ((cards.foldl addCard acc).map (fun v => v.url)).Nodup := by
  intro cards
  induction cards with
  | nil => intro acc h; exact h
  | cons c rest ih =>
    intro acc h
    rw [List.foldl_cons]
    exact ih _ (addCard_nodup acc c h)

theorem foldl_addAnchor_nodup :
    ∀ (anchors : List Anchor) (acc : List VideoInfo),
      (acc.map (fun v => v.url)).Nodup →
      ((anchors.foldl addAnchor acc).map (fun v => v.url)).Nodup := by
  intro anchors
  induction anchors with
  | nil => intro acc h; exact h
  | cons a rest ih =>
    intro acc h
    rw [List.foldl_cons]
    exact ih _ (addAnchor_nodup acc a h)

theorem jsAlt_none (b : Option String) : jsAlt none b = b := rfl

/-- C3: the resolver is a total function of the fetched page: a
malformed Fusion blob is caught and behaves exactly as an absent blob
(so resolution can still succeed via the markup strategy), a page on
which every strategy misses resolves to null rather than raising, and
the caller treats a falsy resolution as skipping the episode (state
untouched, no download, no transcode, no catalog entry) rather than
aborting the run. -/
theorem resolver_never_throws :
    (∀ p : Page, p.fusionBlob = some FusionParse.malformed →
      extractVideoUrl p = extractVideoUrl { p with fusionBlob := none } ∧
      (jsTruthy p.videoSourceSrc = true → extractVideoUrl p = p.videoSourceSrc)) ∧
    (∀ p : Page, jsTruthy (strategy1 p) = false → jsTruthy (strategy2 p) = false →
      jsTruthy (strategy3 p) = false → jsTruthy (strategy4 p) = false →
      jsTruthy (strategy5 p) = false → extractVideoUrl p = none) ∧
    (∀ (genYaml : Bool) (fs : FS) (ep : EpisodeInput),
      jsTruthy (extractVideoUrl ep.page) = false →
      processEpisode genYaml fs ep = ⟨fs, 0, 0, none⟩) := by
  refine ⟨?_, ?_, ?_⟩
  · intro p hmal
    have hs1 : strategy1 p = none := by rw [strategy1, hmal]
    constructor
    · rw [extractVideoUrl, extractVideoUrl, hs1]
      rfl
    · intro htr
      rw [extractVideoUrl, hs1, jsAlt_none]
      have hs2 : strategy2 p = p.videoSourceSrc := by
        rw [strategy2, jsOr, if_pos htr]
      rw [hs2]
      exact jsAlt_of_truthy htr
  · intro p h1 h2 h3 h4 h5
    rw [extractVideoUrl, jsAlt_of_falsy h1, jsAlt_of_falsy h2, jsAlt_of_falsy h3,
      jsAlt_of_falsy h4, jsAlt_of_falsy h5]
  · intro genYaml fs ep h
    rw [processEpisode, if_neg (by rw [h]; exact Bool.false_ne_true)]

theorem resolver_never_throws_witness :
    extractVideoUrl wPageMal = some ("http://x/v.mp4") ∧
    extractVideoUrl wPageMiss = none ∧
    processEpisode true [] wEpMiss = ⟨[], 0, 0, none⟩ := by
  refine ⟨?_, ?_, ?_⟩
  · have h := (resolver_never_throws.1 wPageMal rfl).2 (by decide)
    rw [h]
    rfl
  · exact resolver_never_throws.2.1 wPageMiss (by decide) (by decide) (by decide)
      (by decide) (by decide)
  · exact resolver_never_throws.2.2 true [] wEpMiss (by decide)

/-- C4: a new entry whose artifact filename is already present in the
catalog is skipped entirely by the merge: the result is identical to
merging the list without it, so no duplicate is added and no ordinal is
consumed (the next surviving entry receives the ordinal the duplicate
would have received). -/
theorem upsertEpisodes_duplicate_skip (doc : TemplateYaml) (dup : NewEpisode)
    (l1 l2 : List NewEpisode)
    (hdup : dup.file ∈ (doc.episodes.getD []).map (fun e => e.file)) :
    upsertEpisodes doc (l1 ++ dup :: l2) = upsertEpisodes doc (l1 ++ l2) := by
  unfold upsertEpisodes
  rw [upsertGo_skip dup l1 _ _ _ l2 hdup]

theorem upsertEpisodes_duplicate_skip_witness :
    cDup.file ∈ (cDoc12.episodes.getD []).map (fun e => e.file) ∧
    upsertEpisodes cDoc12 [cDup] = upsertEpisodes cDoc12 [] :=
  ⟨by decide, upsertEpisodes_duplicate_skip cDoc12 cDup [] [] (by decide)⟩

/-- C6 counterexample: in cMeta6 an mp4-typed stream with a usable URL
exists (the second one), and the page also has a static video source,
yet resolution returns the ts-typed stream's URL, because the code only
consults the first mp4-typed stream found and that one lacks a url, so
the claim that a ts stream is accepted only when no mp4 stream with a
URL exists is false. -/
theorem mp4_preference_counterexample :
    (cMeta6.streams.getD []).any (fun s => isMp4Stream s && jsTruthy s.url) = true ∧
    jsTruthy cPage6.videoSourceSrc = true ∧
    extractVideoUrl cPage6 = some ("http://b/seg.ts") :=
  ⟨by decide, by decide, by decide⟩

/-- C6 amended: when the Fusion blob parses and its stream selection
yields a URL, resolution returns that URL and never the markup URL; the
selection prefers the url of the first mp4-typed stream when it is
usable, and accepts the url of the first ts-typed stream exactly when
the first mp4-typed stream lacks a usable url (even if a later
mp4-typed stream has one). -/
theorem resolver_metadata_priority :
    (∀ (p : Page) (m : VideoMetadata), p.fusionBlob = some (FusionParse.ok m) →
      ∀ u : String, fusionStreamUrl m = some u → extractVideoUrl p = some u) ∧
    (∀ (m : VideoMetadata) (l : List VideoStream), m.streams = some l →
      jsTruthy (mp4UrlOf l) = true → fusionStreamUrl m = mp4UrlOf l) ∧
    (∀ (m : VideoMetadata) (l : List VideoStream), m.streams = some l →
      jsTruthy (mp4UrlOf l) = false → jsTruthy (tsUrlOf l) = true →
      fusionStreamUrl m = tsUrlOf l) := by
  refine ⟨?_, ?_, ?_⟩
  · intro p m hp u hu
    have hs1 : strategy1 p = some u := by
      rw [strategy1, hp]
      exact hu
    rw [extractVideoUrl, hs1, jsAlt_of_truthy (fusionStreamUrl_truthy hu)]
  · intro m l hm h4
    unfold fusionStreamUrl
    rw [hm]
    show (if jsTruthy (mp4UrlOf l) then mp4UrlOf l
      else if jsTruthy (tsUrlOf l) then tsUrlOf l else none) = mp4UrlOf l
    rw [if_pos h4]
  · intro m l hm h4 h5
    unfold fusionStreamUrl
    rw [hm]
    show (if jsTruthy (mp4UrlOf l) then mp4UrlOf l
      else if jsTruthy (tsUrlOf l) then tsUrlOf l else none) = tsUrlOf l
    rw [if_neg (by rw [h4]; exact Bool.false_ne_true), if_pos h5]

theorem resolver_metadata_priority_witness :
    fusionStreamUrl cMetaGood = some ("http://a/a.mp4") ∧
    extractVideoUrl cPageGood = some ("http://a/a.mp4") :=
  ⟨by decide, resolver_metadata_priority.1 cPageGood cMetaGood rfl ("http://a/a.mp4") (by decide)⟩

/-- C8 counterexample: for an episode with no parseable publish date the
derived filename embeds the run's current date, so two runs at different
times derive different filenames for the same (absent) identity. -/
theorem filename_missing_date_counterexample :
    buildFilenameFromPubDate none wNow ≠ buildFilenameFromPubDate none wNow2 := by
  decide

/-- C8 amended: the derived filename is a pure deterministic function of
the episode identity whenever that identity is available: a parseable
publish date determines the filename independently of the clock, and a
title carrying an episode number determines the variant filename
independently of the clock; only when the identity is absent does the
filename fall back to the run's current date. -/
theorem filename_deterministic_with_identity :
    (∀ (d n1 n2 : JSDate),
      buildFilenameFromPubDate (some d) n1 = buildFilenameFromPubDate (some d) n2) ∧
    (∀ (t : String) (n1 n2 : JSDate), findEpNum t.data ≠ none →
      sanitizeFilename t n1 = sanitizeFilename t n2) := by
  constructor
  · intro d n1 n2
    rfl
  · intro t n1 n2 h
    unfold sanitizeFilename
    cases hf : findEpNum t.data with
    | some ds => rfl
    | none => exact absurd hf h

theorem filename_deterministic_witness :
    buildFilenameFromPubDate (some wDate) wNow = buildFilenameFromPubDate (some wDate) wNow2 ∧
    findEpNum cTitleEp.data ≠ none ∧
    sanitizeFilename cTitleEp wNow = sanitizeFilename cTitleEp wNow2 :=
  ⟨filename_deterministic_with_identity.1 wDate wNow wNow2, by decide,
    filename_deterministic_with_identity.2 cTitleEp wNow wNow2 (by decide)⟩

/-- C9 counterexample: two card anchors resolving to the same episode
page up to a trailing slash produce two distinct EpisodeRefs, because
de-duplication compares exact absolute URL strings (the trailing-slash
normalization is applied only to the listing-page self-exclusion
check), so the claim that discovery is trailing-slash-insensitive is
false. -/
theorem discovery_trailing_slash_counterexample :
    (searchForVideos cListing).map (fun v => v.url) =
      ["https://www.wtap.com/2024/01/02/slug", "https://www.wtap.com/2024/01/02/slug/"] ∧
    ensureTrailingSlash ("https://www.wtap.com/2024/01/02/slug") =
      ensureTrailingSlash ("https://www.wtap.com/2024/01/02/slug/") ∧
    ¬ (searchForVideos cListing).length = 1 :=
  ⟨by decide, by decide, by decide⟩

/-- C9 amended: discovery returns episode references de-duplicated by
exact absolute URL string (not trailing-slash-insensitive) in
first-seen document order: the produced URL list never contains a
duplicate string, while two anchors differing only in a trailing slash
yield two distinct references. -/
theorem discovery_dedup_exact_url (p : ListingPage) :
    ((searchForVideos p).map (fun v => v.url)).Nodup := by
  unfold searchForVideos
  split
  · exact foldl_addAnchor_nodup p.allAnchors [] (by simp)
  · exact foldl_addCard_nodup p.cards [] (by simp)

/-- C1: for an episode whose video artifact exists and whose audio
artifact does not, and whose page resolves, the run performs no network
media fetch (downloadVideo returns before fetching), invokes the
transcoder exactly once on the existing video file, and on transcode
success the video artifact no longer exists while the audio artifact
does. -/
theorem resumability_video_only (genYaml : Bool) (fs : FS) (ep : EpisodeInput)
    (hres : jsTruthy (extractVideoUrl ep.page) = true)
    (hv : dataPath (videoNameOf ep) ∈ fs)
    (ha : ¬ dataPath (audioNameOf ep) ∈ fs)
    (hok : ep.ffmpegOk = true) :
    (processEpisode genYaml fs ep).downloads = 0 ∧
    (processEpisode genYaml fs ep).transcodes = 1 ∧
    ¬ dataPath (videoNameOf ep) ∈ (processEpisode genYaml fs ep).fs ∧
    dataPath (audioNameOf ep) ∈ (processEpisode genYaml fs ep).fs := by
  have ha0 : ¬ dataPath (replaceMp4Ext (videoNameOf ep)) ∈ fs := ha
  have hdl : downloadVideo fs (videoNameOf ep) ep.netOk = ⟨true, fs, 0⟩ := by
    unfold downloadVideo
    rw [if_neg ha0, if_pos hv]
  have hex : extractAudio fs (videoNameOf ep) ep.ffmpegOk =
      (true, removeFile (dataPath (videoNameOf ep))
        (insertFile (dataPath (replaceMp4Ext (videoNameOf ep))) fs)) := by
    unfold extractAudio
    rw [if_pos (by rw [hok]; simp [hv])]
  have hmem : dataPath (audioNameOf ep) ∈ removeFile (dataPath (videoNameOf ep))
      (insertFile (dataPath (replaceMp4Ext (videoNameOf ep))) fs) := by
    rw [mem_removeFile]
    exact ⟨mem_insertFile.mpr (Or.inl rfl), audioPath_ne_videoPath ep⟩
  have htag : tagPhase genYaml (removeFile (dataPath (videoNameOf ep))
      (insertFile (dataPath (replaceMp4Ext (videoNameOf ep))) fs)) 0 1 ep =
      ⟨removeFile (dataPath (videoNameOf ep))
        (insertFile (dataPath (replaceMp4Ext (videoNameOf ep))) fs), 0, 1,
        if genYaml then some (mkEntry ep) else none⟩ := by
    unfold tagPhase
    rw [if_pos hmem]
  have hall : processEpisode genYaml fs ep =
      ⟨removeFile (dataPath (videoNameOf ep))
        (insertFile (dataPath (replaceMp4Ext (videoNameOf ep))) fs), 0, 1,
        if genYaml then some (mkEntry ep) else none⟩ := by
    unfold processEpisode
    rw [if_pos hres, hdl]
    show (match extractAudio fs (videoNameOf ep) ep.ffmpegOk with
      | (true, fs2) => tagPhase genYaml fs2 0 1 ep
      | (false, fs2) => ⟨fs2, 0, 1, none⟩) = _
    rw [hex]
    exact htag
  rw [hall]
  refine ⟨rfl, rfl, ?_, hmem⟩
  rw [mem_removeFile]
  rintro ⟨_, hne⟩
  exact hne rfl

theorem resumability_video_only_witness :
    (processEpisode true wFsVideo wEp).downloads = 0 ∧
    (processEpisode true wFsVideo wEp).transcodes = 1 ∧
    ¬ dataPath (videoNameOf wEp) ∈ (processEpisode true wFsVideo wEp).fs ∧
    dataPath (audioNameOf wEp) ∈ (processEpisode true wFsVideo wEp).fs :=
  resumability_video_only true wFsVideo wEp (by decide) (by decide) (by decide) rfl

/-- C7: for an episode with no artifacts on disk whose media download
fails, the partially written video file is deleted before the episode is
reported failed: afterwards neither the video nor the audio artifact
exists at the derived paths, no transcode ran, and the episode is
skipped for tagging and cataloging in that run. -/
theorem download_failure_cleanup (genYaml : Bool) (fs : FS) (ep : EpisodeInput)
    (hres : jsTruthy (extractVideoUrl ep.page) = true)
    (hv : ¬ dataPath (videoNameOf ep) ∈ fs)
    (ha : ¬ dataPath (audioNameOf ep) ∈ fs)
    (hnet : ep.netOk = false) :
    ¬ dataPath (videoNameOf ep) ∈ (processEpisode genYaml fs ep).fs ∧
    ¬ dataPath (audioNameOf ep) ∈ (processEpisode genYaml fs ep).fs ∧
    (processEpisode genYaml fs ep).transcodes = 0 ∧
    (processEpisode genYaml fs ep).entry = none := by
  have ha0 : ¬ dataPath (replaceMp4Ext (videoNameOf ep)) ∈ fs := ha
  have hdl : downloadVideo fs (videoNameOf ep) ep.netOk =
      ⟨false, removeFile (dataPath (videoNameOf ep))
        (insertFile (dataPath (videoNameOf ep)) fs), 1⟩ := by
    unfold downloadVideo
    rw [if_neg ha0, if_neg hv, hnet]
    rfl
  have hvX : ¬ dataPath (videoNameOf ep) ∈ removeFile (dataPath (videoNameOf ep))
      (insertFile (dataPath (videoNameOf ep)) fs) := by
    rw [mem_removeFile]
    rintro ⟨_, hne⟩
    exact hne rfl
  have haX : ¬ dataPath (audioNameOf ep) ∈ removeFile (dataPath (videoNameOf ep))
      (insertFile (dataPath (videoNameOf ep)) fs) := by
    rw [mem_removeFile]
    rintro ⟨hin, hne⟩
    rcases mem_insertFile.mp hin with heq | hmem
    · exact hne heq
    · exact ha hmem
  have hall : processEpisode genYaml fs ep =
      ⟨removeFile (dataPath (videoNameOf ep))
        (insertFile (dataPath (videoNameOf ep)) fs), 1, 0, none⟩ := by
    unfold processEpisode
    rw [if_pos hres, hdl]
    show tagPhase genYaml (removeFile (dataPath (videoNameOf ep))
      (insertFile (dataPath (videoNameOf ep)) fs)) 1 0 ep = _
    unfold tagPhase
    rw [if_neg haX]
  rw [hall]
  exact ⟨hvX, haX, rfl, rfl⟩

theorem download_failure_cleanup_witness :
    ¬ dataPath (videoNameOf wEpFail) ∈ (processEpisode true [] wEpFail).fs ∧
    ¬ dataPath (audioNameOf wEpFail) ∈ (processEpisode true [] wEpFail).fs ∧
    (processEpisode true [] wEpFail).transcodes = 0 ∧
    (processEpisode true [] wEpFail).entry = none :=
  download_failure_cleanup true [] wEpFail (by decide) (by decide) (by decide) rfl

/-- C10: when both the video and the audio artifact already exist, the
audio-existence check takes precedence: any number of subsequent runs
over the episode performs zero downloads and zero transcodes, leaves the
filesystem unchanged, and the stray video artifact persists (it is only
ever removed by a successful transcode, which never runs again). -/
theorem stray_video_persists (genYaml : Bool) (ep : EpisodeInput) (fs : FS)
    (hv : dataPath (videoNameOf ep) ∈ fs)
    (ha : dataPath (audioNameOf ep) ∈ fs) :
    ∀ n : Nat, (processN genYaml ep n fs).1 = fs ∧
      (processN genYaml ep n fs).2.1 = 0 ∧ (processN genYaml ep n fs).2.2 = 0 ∧
      dataPath (videoNameOf ep) ∈ (processN genYaml ep n fs).1 := by
  intro n
  induction n with
  | zero => exact ⟨rfl, rfl, rfl, hv⟩
  | succ n ih =>
    obtain ⟨ih1, ih2, ih3, ih4⟩ := ih
    have hpe := processEpisode_audio_present genYaml fs ep ha
    have hfs : (processEpisode genYaml fs ep).fs = fs := by rw [hpe]
    have hd : (processEpisode genYaml fs ep).downloads = 0 := by rw [hpe]
    have ht : (processEpisode genYaml fs ep).transcodes = 0 := by rw [hpe]
    refine ⟨?_, ?_, ?_, ?_⟩
    · show (processN genYaml ep n (processEpisode genYaml fs ep).fs).1 = fs
      rw [hfs]
      exact ih1
    · show (processEpisode genYaml fs ep).downloads
        + (processN genYaml ep n (processEpisode genYaml fs ep).fs).2.1 = 0
      rw [hfs, hd, ih2]
    · show (processEpisode genYaml fs ep).transcodes
        + (processN genYaml ep n (processEpisode genYaml fs ep).fs).2.2 = 0
      rw [hfs, ht, ih3]
    · show dataPath (videoNameOf ep) ∈ (processN genYaml ep n (processEpisode genYaml fs ep).fs).1
      rw [hfs]
      exact ih4

theorem stray_video_persists_witness :
    (processN true wEp 3 wFsBoth).1 = wFsBoth ∧
    (processN true wEp 3 wFsBoth).2.1 = 0 ∧ (processN true wEp 3 wFsBoth).2.2 = 0 ∧
    dataPath (videoNameOf wEp) ∈ (processN true wEp 3 wFsBoth).1 :=
  stray_video_persists true wEp wFsBoth (by decide) (by decide) 3

/-- C2: over a filesystem and catalog produced by a completed first run
(the audio artifact of every discovered episode exists and its filename
is already in the catalog), a second run over the same episodes performs
zero network media fetches and zero transcodes, leaves the filesystem
unchanged, and the catalog merge adds zero entries: the merged episode
list is a permutation of the existing one, of the same length. -/
theorem second_run_idempotent (genYaml : Bool) (fs : FS) (doc : TemplateYaml)
    (eps : List EpisodeInput)
    (h : ∀ ep ∈ eps, dataPath (audioNameOf ep) ∈ fs ∧
      audioNameOf ep ∈ (doc.episodes.getD []).map (fun e => e.file)) :
    (runEpisodes genYaml fs eps).fs = fs ∧
    (runEpisodes genYaml fs eps).downloads = 0 ∧
    (runEpisodes genYaml fs eps).transcodes = 0 ∧
    ((mergeIntoCatalog doc (runEpisodes genYaml fs eps).entries).episodes.getD []).Perm
      (doc.episodes.getD []) ∧
    ((mergeIntoCatalog doc (runEpisodes genYaml fs eps).entries).episodes.getD []).length
      = (doc.episodes.getD []).length := by
  obtain ⟨h1, h2, h3, h4⟩ := runEpisodes_all_audio genYaml fs eps (fun ep hep => (h ep hep).1)
  have hfiles : ∀ e ∈ sortByPubDate (runEpisodes genYaml fs eps).entries,
      e.file ∈ (doc.episodes.getD []).map (fun x => x.file) := by
    intro e he
    have hmem : e ∈ (runEpisodes genYaml fs eps).entries :=
      (sortByLe_perm _ _).subset he
    obtain ⟨ep, hep, rfl⟩ := h4 e hmem
    rw [mkEntry_file]
    exact (h ep hep).2
  have hup := upsertEpisodes_all_dup doc (sortByPubDate (runEpisodes genYaml fs eps).entries) hfiles
  have hperm : ((mergeIntoCatalog doc (runEpisodes genYaml fs eps).entries).episodes.getD []).Perm
      (doc.episodes.getD []) := by
    rw [mergeIntoCatalog, hup]
    exact sortByLe_perm _ _
  exact ⟨h1, h2, h3, hperm, hperm.length_eq⟩

theorem second_run_idempotent_witness :
    (runEpisodes true wFsAudio [wEp]).downloads = 0 ∧
    (runEpisodes true wFsAudio [wEp]).transcodes = 0 ∧
    (runEpisodes true wFsAudio [wEp]).fs = wFsAudio ∧
    ((mergeIntoCatalog wDoc (runEpisodes true wFsAudio [wEp]).entries).episodes.getD []).length
      = (wDoc.episodes.getD []).length := by
  have h := second_run_idempotent true wFsAudio wDoc [wEp] (by
    intro ep hep
    rw [List.mem_singleton] at hep
    subst hep
    exact ⟨by decide, by decide⟩)
  exact ⟨h.2.1, h.2.2.1, h.1, h.2.2.2.2⟩

theorem insertByLe_all (le : α → α → Bool) (x : α) (l : List α)
    (h : ∀ y ∈ l, le x y = true) : insertByLe le x l = x :: l := by
  cases l with
  | nil => rfl
  | cons y ys => rw [insertByLe, if_pos (h y (List.mem_cons_self y ys))]

theorem sortByLe_of_pairwise (le : α → α → Bool) :
    ∀ l : List α, List.Pairwise (fun x y => le x y = true) l → sortByLe le l = l := by
  intro l
  induction l with
  | nil => intro _; rfl
  | cons x xs ih =>
    intro h
    rw [sortByLe, ih (List.pairwise_cons.mp h).2]
    exact insertByLe_all le x xs (List.pairwise_cons.mp h).1

/-- C5: merging two fresh entries into a catalog carrying ordinals one
and two yields the ordinal sequence one to four, with three and four
assigned to the new entries in ascending publish-date order among
themselves; and in general the ordinals of the merged catalog are a
permutation of the existing ordinals together with the consecutive
block starting at the maximum existing ordinal plus one, one ordinal
per surviving new entry. -/
theorem catalog_merge_ordinal_assignment :
    (∀ (doc : TemplateYaml) (a b : EpisodeYaml) (n1 n2 : NewEpisode),
      doc.episodes = some [a, b] → a.episode = 1 → b.episode = 2 →
      ¬ n1.file = a.file → ¬ n1.file = b.file → ¬ n2.file = a.file → ¬ n2.file = b.file →
      ¬ n1.file = n2.file → n1.pub_date ≤ n2.pub_date →
      (mergeIntoCatalog doc [n1, n2]).episodes =
        some [a, b, n1.toYaml 3, n2.toYaml 4]) ∧
    (∀ (doc : TemplateYaml) (news : List NewEpisode),
      (((upsertEpisodes doc news).episodes.getD []).map (fun e => e.episode)).Perm
        (((doc.episodes.getD []).map (fun e => e.episode)) ++
          List.range' (existingMaxOf (doc.episodes.getD []) + 1)
            (surviveCount ((doc.episodes.getD []).map (fun e => e.file)) news))) := by
  constructor
  · intro doc a b n1 n2 hdoc ha hb hf1a hf1b hf2a hf2b hf12 hpd
    have hsort : sortByPubDate [n1, n2] = [n1, n2] := by
      simp only [sortByPubDate, sortByLe, insertByLe]
      rw [if_pos (decide_eq_true hpd)]
    have hmax : existingMaxOf [a, b] = 2 := by
      unfold existingMaxOf
      simp only [List.foldl_cons, List.foldl_nil]
      rw [ha, hb]
      decide
    have hmem1 : ¬ n1.file ∈ [a.file, b.file] := by
      simp [hf1a, hf1b]
    have hmem2 : ¬ n2.file ∈ [n1.file, a.file, b.file] := by
      simp [Ne.symm hf12, hf2a, hf2b]
    have hgo : upsertGo [a.file, b.file] 3 [a, b] [n1, n2] =
        [a, b, n1.toYaml 3, n2.toYaml 4] := by
      rw [upsertGo, if_neg hmem1, upsertGo, if_neg hmem2, upsertGo]
      rfl
    have hpw : List.Pairwise
        (fun x y => (fun p q : EpisodeYaml => decide (p.episode ≤ q.episode)) x y = true)
        [a, b, n1.toYaml 3, n2.toYaml 4] := by
      refine List.Pairwise.cons ?_ (List.Pairwise.cons ?_ (List.Pairwise.cons ?_
        (List.pairwise_singleton _ _)))
      · intro y hy
        simp only [List.mem_cons, List.not_mem_nil, or_false] at hy
        rcases hy with rfl | rfl | rfl
        · exact decide_eq_true (by rw [ha, hb]; exact Nat.le_succ 1)
        · exact decide_eq_true (by rw [ha]; show 1 ≤ 3; exact by decide)
        · exact decide_eq_true (by rw [ha]; show 1 ≤ 4; exact by decide)
      · intro y hy
        simp only [List.mem_cons, List.not_mem_nil, or_false] at hy
        rcases hy with rfl | rfl
        · exact decide_eq_true (by rw [hb]; show 2 ≤ 3; exact by decide)
        · exact decide_eq_true (by rw [hb]; show 2 ≤ 4; exact by decide)
      · intro y hy
        simp only [List.mem_cons, List.not_mem_nil, or_false] at hy
        subst hy
        exact decide_eq_true (by show 3 ≤ 4; exact by decide)
    rw [mergeIntoCatalog, hsort]
    unfold upsertEpisodes
    show some (sortByLe (fun x y => x.episode ≤ y.episode)
      (upsertGo ((doc.episodes.getD []).map (fun e => e.file))
        (existingMaxOf (doc.episodes.getD []) + 1) (doc.episodes.getD []) [n1, n2])) = _
    rw [hdoc]
    simp only [Option.getD_some, List.map_cons, List.map_nil]
    rw [hmax]
    show some (sortByLe (fun x y => x.episode ≤ y.episode)
      (upsertGo [a.file, b.file] 3 [a, b] [n1, n2])) = _
    rw [hgo, sortByLe_of_pairwise _ _ hpw]
  · intro doc news
    have hperm := (sortByLe_perm (fun a b => a.episode ≤ b.episode)
      (upsertGo ((doc.episodes.getD []).map (fun e => e.file))
        (existingMaxOf (doc.episodes.getD []) + 1) (doc.episodes.getD []) news)).map
      (fun e : EpisodeYaml => e.episode)
    rw [upsertGo_map_episode news ((doc.episodes.getD []).map (fun e => e.file))
      (existingMaxOf (doc.episodes.getD []) + 1) (doc.episodes.getD [])] at hperm
    exact hperm

theorem catalog_merge_ordinal_assignment_witness :
    cDoc12.episodes = some [cEntryA, cEntryB] ∧
    (mergeIntoCatalog cDoc12 [cNew1, cNew2]).episodes =
      some [cEntryA, cEntryB, cNew1.toYaml 3, cNew2.toYaml 4] :=
  ⟨rfl, catalog_merge_ordinal_assignment.1 cDoc12 cEntryA cEntryB cNew1 cNew2 rfl rfl rfl
    (by decide) (by decide) (by decide) (by decide) (by decide) (by decide)⟩

end Scraper
